import Mathlib

/-!
Verification of the `img2vid` utilities (`src/img2vid/cli.py` and
`src/img2vid/utils/bounce.py`) against their natural-language specification.

The Python code is shallowly embedded: the filesystem is modelled as an
explicit list of existing file names / directory entries, Python `int` as
`Int`/`Nat`, Python `float` values that are only ever rendered into command
strings as abstract rendering functions, and fallible code (`sys.exit`,
bad ranges) as `Except String`.
-/

namespace Img2vid

/-- Model of Python `str.lower()` (code-point-wise lowercasing; the inputs of
interest are ASCII file names and extensions). -/
def strLower (s : String) : String :=
  ⟨s.data.map Char.toLower⟩

/-- Model of Python `str.lstrip(".")`: drop every leading `'.'` character. -/
def lstripDots (s : String) : String :=
  ⟨s.data.dropWhile (fun c => c = '.')⟩

/-- Model of Python `str.startswith(pre)`. -/
def startswith (s pre : String) : Bool :=
  pre.data.isPrefixOf s.data

/-- Model of `os.path.splitext` / `pathlib`'s suffix split on a final path
component: split at the last `'.'`, except that a name whose part before that
dot is all dots (e.g. `".bashrc"`) has no extension. -/
def splitext (s : String) : String × String :=
  let cs := s.data
  let afterDot := (cs.reverse.takeWhile (fun c => c ≠ '.')).reverse
  if afterDot.length = cs.length then (s, "")
  else
    let i := cs.length - afterDot.length - 1
    if (cs.take i).any (fun c => c ≠ '.') then (⟨cs.take i⟩, ⟨cs.drop i⟩)
    else (s, "")

/-- Decimal digit characters of `n`, most significant first, written with
explicit fuel (`fuel > n` suffices) so that it is structurally recursive.
Models Python's decimal rendering of a nonnegative `int`. -/
def decStrAux : ℕ → ℕ → List Char
  | 0, _ => []
  | fuel + 1, n =>
    if n < 10 then [Nat.digitChar n]
    else decStrAux fuel (n / 10) ++ [Nat.digitChar (n % 10)]

/-- Decimal string of a natural number (model of Python `str(i)` / `f"{i:d}"`
for a nonnegative `int`). -/
def decStr (n : ℕ) : String :=
  ⟨decStrAux (n + 1) n⟩

/-- Model of Python `f"{i:03d}"`: the decimal string of `i`, zero-padded on
the left to width at least 3. -/
def pad3 (n : ℕ) : String :=
  let s := decStr n
  if s.length = 1 then "00" ++ s
  else if s.length = 2 then "0" ++ s
  else s

/-- Candidate output file name `f"{end_stem}_{i:03d}{end_ext}"` used both by
the slot allocator (`find_free_block`) and the copy loop of `bounce.main`. -/
def candidate (stem ext : String) (i : ℕ) : String :=
  stem ++ "_" ++ pad3 i ++ ext

/-- Model of `cli._escape_single_quotes`: replace each `'` by `'\''`. -/
def escape_single_quotes (s : String) : String :=
  ⟨s.data.flatMap (fun c => if c = '\'' then ['\'', '\\', '\'', '\''] else [c])⟩

/-- Model of Python `",".join(l)`. -/
def joinComma : List String → String
  | [] => ""
  | [x] => x
  | x :: xs => x ++ "," ++ joinComma xs

/-! ### `bounce.py` -/

/-- The optional range arguments of the bounce tool (`--start`, `--end`,
`--from-name`, `--to-name`); `none` models a flag that was not supplied. -/
structure BounceArgs where
  start : Option Int
  end' : Option Int
  from_name : Option String
  to_name : Option String

/-- Python truthiness of an optional string: `None` and `""` are falsy. -/
def optTruthy : Option String → Bool
  | none => false
  | some s => s ≠ ""

/-- Model of `bounce.index_from_name`: `files.index(name)` returns the first
position of an exact match, and the tool exits with an error when the name is
absent. -/
def index_from_name (files : List String) (name : String) : Except String ℕ :=
  match files.findIdx? (fun f => f == name) with
  | some i => .ok i
  | none => .error ("[오류] 지정한 파일을 찾을 수 없습니다: " ++ name)

/-- The three bound-selection branches of `bounce.resolve_range`, before the
final validation.  Filename bounds take the first branch whenever one of them
was supplied (`is not None`); otherwise index bounds; otherwise the whole
range `(0, len(files)-1)`.  Indices are 1-based and converted by
subtracting 1. -/
def resolve_bounds (files : List String) (a : BounceArgs) : Except String (Int × Int) :=
  if a.from_name.isSome || a.to_name.isSome then
    if !(optTruthy a.from_name && optTruthy a.to_name) then
      .error "[오류] --from-name 과 --to-name 을 함께 지정하세요."
    else
      match index_from_name files (a.from_name.getD "") with
      | .error m => .error m
      | .ok s0 =>
        match index_from_name files (a.to_name.getD "") with
        | .error m => .error m
        | .ok e0 => .ok ((s0 : Int), (e0 : Int))
  else if a.start.isSome || a.end'.isSome then
    if a.start.isNone || a.end'.isNone then
      .error "[오류] --start/--end 는 함께 지정해야 합니다."
    else
      .ok (a.start.getD 0 - 1, a.end'.getD 0 - 1)
  else
    .ok (0, (files.length : Int) - 1)

/-- Model of `bounce.resolve_range`: resolve the bounds, then reject the
result unless `0 ≤ s0 ≤ e0 < len(files)`. -/
def resolve_range (files : List String) (a : BounceArgs) : Except String (ℕ × ℕ) :=
  match resolve_bounds files a with
  | .error m => .error m
  | .ok (s0, e0) =>
    if s0 < 0 || (files.length : Int) ≤ e0 || e0 < s0 then
      .error "[오류] 인덱스/파일 범위가 올바르지 않습니다."
    else
      .ok (s0.toNat, e0.toNat)

/-- One existence test of `bounce.find_free_block`: the block of `count`
candidate names starting at `n` is entirely absent from the set `existing` of
file names currently on disk (`os.path.exists`). -/
def blockFreeB (existing : List String) (stem ext : String) (count n : ℕ) : Bool :=
  (List.range count).all (fun j => !(existing.contains (candidate stem ext (n + j))))

/-- The `while True` loop of `bounce.find_free_block`, with explicit fuel:
test the block at `n`, and on any collision advance to `n + 1`. -/
def findFreeBlockAux (existing : List String) (stem ext : String) (count : ℕ) :
    ℕ → ℕ → Option ℕ
  | 0, _ => none
  | fuel + 1, n =>
    if blockFreeB existing stem ext count n then some n
    else findFreeBlockAux existing stem ext count fuel (n + 1)

/-- Fuel sufficient for `findFreeBlockAux` to succeed: past
`10 ^ (maximum length of an existing file name)` every candidate name is
longer than every existing name, hence free (proved below). -/
def fuelBound (existing : List String) : ℕ :=
  10 ^ (existing.map String.length).foldr max 0

/-- Model of `bounce.find_free_block`: scan `n = 1, 2, 3, …` for the first
fully free block of `count` candidate names.  The source loops without bound;
here the loop carries fuel `fuelBound existing`, which is proved sufficient,
so `none` is unreachable. -/
def find_free_block (existing : List String) (stem ext : String) (count : ℕ) : Option ℕ :=
  findFreeBlockAux existing stem ext count (fuelBound existing) 1

/-- The copy plan computed by `bounce.main` after the images have been listed:
resolve the range, take source indices `e0-1, e0-2, …, s0` (skipping the end
frame), allocate a block of fresh names anchored at the end frame's stem and
extension, and pair each source file with its destination
`f"{end_stem}_{k:03d}{end_ext}"` for `k = start_block, start_block+1, …`.
An empty list of source indices (`s0 == e0`) is the documented no-op.
The filesystem is the argument `existing`; copying and printing are the only
effects omitted. -/
def bounce_plan (existing files : List String) (a : BounceArgs) :
    Except String (List (String × String)) :=
  if files.isEmpty then .error "[오류] 현재 폴더에서 이미지 파일을 찾지 못했습니다."
  else
    match resolve_range files a with
    | .error m => .error m
    | .ok (s0, e0) =>
      let src_indices := (List.range (e0 - s0)).map (fun j => e0 - 1 - j)
      if src_indices.isEmpty then .ok []
      else
        let end_file := files.getD e0 ""
        let stem := (splitext end_file).1
        let ext := (splitext end_file).2
        match find_free_block existing stem ext src_indices.length with
        | none => .error "fuel exhausted (unreachable)"
        | some start_block =>
          .ok (src_indices.enum.map (fun ji =>
            (files.getD ji.2 "", candidate stem ext (start_block + ji.1))))

/-- The preview printed at the end of `bounce.main`: the original files with
the created names spliced in right after the end frame, windowed to
`preview[max(0, e0-2) : min(len(preview), e0+3+len(created))]`. -/
def preview_window (files created : List String) (e0 : ℕ) : List String :=
  let preview := files.take (e0 + 1) ++ created ++ files.drop (e0 + 1)
  let ws := e0 - 2
  let we := min preview.length (e0 + 3 + created.length)
  (preview.drop ws).take (we - ws)

/-! ### `cli.py` -/

/-- A directory entry as produced by `Path.glob`: its full path, its final
component (`p.name`), and whether it is a regular file.  The enumeration of a
root directory under a recursion flag is modelled by the entry list itself. -/
structure FSEntry where
  path : String
  name : String
  isFile : Bool
deriving DecidableEq

/-- Model of `cli.collect_images`: keep regular files whose lowercased,
dot-stripped extension is in the accepted set, then sort (stably) by the
lowercased file name — not the full path. -/
def collect_images (entries : List FSEntry) (exts : List String) : List FSEntry :=
  let extsLower := exts.map (fun e => lstripDots (strLower e))
  let files := entries.filter (fun p =>
    p.isFile && extsLower.contains (lstripDots (strLower (splitext p.name).2)))
  files.mergeSort (fun p q => decide ((strLower p.name).data ≤ (strLower q.name).data))

/-- The loop of `cli.build_concat_file` over `enumerate(imgs)`: one
`file '<escaped path>'` line per image, followed by a `duration` line for
every index `i < len(imgs) - 1`. -/
def concat_loop (n : ℕ) (durLine : String) : ℕ → List String → String
  | _, [] => ""
  | i, p :: rest =>
    "file '" ++ escape_single_quotes p ++ "'\n" ++
    (if i < n - 1 then durLine else "") ++
    concat_loop n durLine (i + 1) rest

/-- Model of `cli.build_concat_file`.  `imgs` are the already-resolved POSIX
path strings (`p.resolve().as_posix()` is filesystem resolution, outside the
embedding), and `fr` abstracts Python's rendering of a `float` to text, so the
duration line is `"duration " ++ fr (1/fps)` for `str(1.0 / fps)`.  After the
loop the last file line is repeated (Python would raise on an empty list; the
`none` branch returns the loop output unchanged). -/
def build_concat_file (imgs : List String) (fps : ℚ) (fr : ℚ → String) : String :=
  let durLine := "duration " ++ fr (1 / fps) ++ "\n"
  concat_loop imgs.length durLine 0 imgs ++
    (match imgs.getLast? with
     | some l => "file '" ++ escape_single_quotes l ++ "'\n"
     | none => "")

/-- The quality/pixel-format defaulting of `cli.main`: `--lossless` with a
`libx264`-prefixed codec and no explicit `--crf` forces CRF 0 and, when no
explicit `--pix-fmt` was given, `yuv444p`; any CRF still unset defaults to 22
for `libx265`-prefixed codecs and 16 otherwise; any pixel format still unset
defaults to `yuv420p`. -/
def resolve_quality (lossless : Bool) (codec : String) (crf : Option ℚ)
    (pix_fmt : Option String) : ℚ × String :=
  let p1 : Option ℚ × Option String :=
    if lossless && startswith codec "libx264" && crf.isNone then
      (some 0, if pix_fmt.isNone then some "yuv444p" else pix_fmt)
    else (crf, pix_fmt)
  let crf2 : ℚ :=
    match p1.1 with
    | some c => c
    | none => if startswith codec "libx265" then 22 else 16
  let pix2 : String :=
    match p1.2 with
    | some p => p
    | none => "yuv420p"
  (crf2, pix2)

/-- The `filters` list of `cli.main`: an optional Lanczos scale to the target
width (height `-2` preserves aspect ratio), always followed by the filter
that rounds both dimensions up to even. -/
def cmd_filters (size : Option (ℕ × ℕ)) : List String :=
  (match size with
   | some wh => ["scale=" ++ decStr wh.1 ++ ":-2:flags=lanczos"]
   | none => []) ++ ["scale=ceil(iw/2)*2:ceil(ih/2)*2"]

/-- The `vf` string of `cli.main`, joining the filters with commas. -/
def cmd_vf (size : Option (ℕ × ℕ)) : String :=
  joinComma (cmd_filters size)

/-- The `-vf` segment of the command; `if vf:` is Python string truthiness. -/
def cmd_vfPart (size : Option (ℕ × ℕ)) : List String :=
  if cmd_vf size ≠ "" then ["-vf", cmd_vf size] else []

/-- The codec-specific segment: `prores_ks` gets a fixed profile and 10-bit
pixel format, all other codecs get the generic quality/preset/pixel flags. -/
def cmd_codecPart (codec crfStr preset pix_fmt : String) : List String :=
  if codec = "prores_ks" then
    ["-c:v", "prores_ks", "-profile:v", "3", "-pix_fmt", "yuv422p10le"]
  else
    ["-c:v", codec, "-crf", crfStr, "-preset", preset, "-pix_fmt", pix_fmt]

/-- The compatibility tag segment: `-tag:v hvc1` exactly when the codec
starts with `libx265` and the output suffix lowercases to `.mp4`. -/
def cmd_tagPart (codec outName : String) : List String :=
  if startswith codec "libx265" && (strLower (splitext outName).2 == ".mp4") then
    ["-tag:v", "hvc1"]
  else []

/-- The ffmpeg command line constructed by `cli.main`.  String renderings of
the floats `args.fps` and `crf` are passed in as `fpsStr`/`crfStr`; `size` is
the parsed `--size` value. -/
def build_cmd (ffmpeg concatStr fpsStr crfStr preset pix_fmt codec outName : String)
    (size : Option (ℕ × ℕ)) : List String :=
  [ffmpeg, "-y", "-f", "concat", "-safe", "0", "-i", concatStr, "-r", fpsStr] ++
    cmd_vfPart size ++ cmd_codecPart codec crfStr preset pix_fmt ++
    cmd_tagPart codec outName ++ [outName]

/-! ### Helper lemmas: termination of the slot allocator -/

lemma decStrAux_length (fuel : ℕ) : ∀ n m : ℕ, n < fuel → 10 ^ m ≤ n →
    m + 1 ≤ (decStrAux fuel n).length := by
  induction fuel with
  | zero => intro n m h _; omega
  | succ fuel ih =>
    intro n m h hpow
    by_cases h10 : n < 10
    · have hm : m = 0 := by
        by_contra hm
        have h1 : (1 : ℕ) ≤ m := Nat.one_le_iff_ne_zero.mpr hm
        have : (10 : ℕ) ^ 1 ≤ 10 ^ m := Nat.pow_le_pow_right (by norm_num) h1
        simp at this
        omega
      subst hm
      simp [decStrAux, h10]
    · have hlen : (decStrAux (fuel + 1) n).length
          = (decStrAux fuel (n / 10)).length + 1 := by
        simp [decStrAux, h10]
      rw [hlen]
      match m with
      | 0 => omega
      | k + 1 =>
        have hdiv : 10 ^ k ≤ n / 10 := by
          rw [Nat.le_div_iff_mul_le (by norm_num : (0:ℕ) < 10)]
          calc 10 ^ k * 10 = 10 ^ (k + 1) := by ring
            _ ≤ n := hpow
        have hlt : n / 10 < fuel := by
          have : n / 10 < n := Nat.div_lt_self (by omega) (by norm_num)
          omega
        have := ih (n / 10) k hlt hdiv
        omega

lemma decStr_length (n m : ℕ) (h : 10 ^ m ≤ n) : m + 1 ≤ (decStr n).length :=
  decStrAux_length (n + 1) n m (Nat.lt_succ_self n) h

lemma decStr_le_pad3_length (n : ℕ) : (decStr n).length ≤ (pad3 n).length := by
  unfold pad3
  simp only []
  split
  · rw [String.length_append]; omega
  · split
    · rw [String.length_append]; omega
    · exact le_refl _

lemma pad3_le_candidate_length (stem ext : String) (i : ℕ) :
    (pad3 i).length ≤ (candidate stem ext i).length := by
  unfold candidate
  rw [String.length_append, String.length_append, String.length_append]
  omega

lemma length_le_foldr_max (l : List String) (f : String) (h : f ∈ l) :
    f.length ≤ (l.map String.length).foldr max 0 := by
  induction l with
  | nil => cases h
  | cons a l ih =>
    rcases List.mem_cons.mp h with rfl | h'
    · exact le_max_left _ _
    · exact le_trans (ih h') (le_max_right _ _)

lemma candidate_notin_existing (existing : List String) (stem ext : String) (i : ℕ)
    (h : fuelBound existing ≤ i) : candidate stem ext i ∉ existing := by
  intro hmem
  have hfl := length_le_foldr_max existing _ hmem
  have hd : (existing.map String.length).foldr max 0 + 1 ≤ (decStr i).length :=
    decStr_length i _ h
  have h1 := decStr_le_pad3_length i
  have h2 := pad3_le_candidate_length stem ext i
  omega

lemma blockFree_at_fuelBound (existing : List String) (stem ext : String) (count : ℕ) :
    blockFreeB existing stem ext count (fuelBound existing) = true := by
  unfold blockFreeB
  rw [List.all_eq_true]
  intro j hj
  have : candidate stem ext (fuelBound existing + j) ∉ existing :=
    candidate_notin_existing existing stem ext _ (Nat.le_add_right _ _)
  simpa using this

lemma findFreeBlockAux_some (existing : List String) (stem ext : String) (count : ℕ)
    (fuel : ℕ) : ∀ n0 j : ℕ, j < fuel → blockFreeB existing stem ext count (n0 + j) = true →
    ∃ n, findFreeBlockAux existing stem ext count fuel n0 = some n := by
  induction fuel with
  | zero => intro n0 j h _; omega
  | succ fuel ih =>
    intro n0 j hj hfree
    by_cases h0 : blockFreeB existing stem ext count n0 = true
    · exact ⟨n0, by simp [findFreeBlockAux, h0]⟩
    · have hj0 : j ≠ 0 := by
        rintro rfl
        simp at hfree
        exact h0 hfree
      obtain ⟨n, hn⟩ := ih (n0 + 1) (j - 1) (by omega)
        (by have : n0 + 1 + (j - 1) = n0 + j := by omega
            rw [this]; exact hfree)
      exact ⟨n, by simp [findFreeBlockAux, h0, hn]⟩

lemma one_le_fuelBound (existing : List String) : 1 ≤ fuelBound existing := by
  unfold fuelBound
  exact Nat.one_le_pow _ _ (by norm_num)

lemma find_free_block_isSome (existing : List String) (stem ext : String) (count : ℕ) :
    ∃ n, find_free_block existing stem ext count = some n := by
  have hB : 1 ≤ fuelBound existing := one_le_fuelBound existing
  have hfree := blockFree_at_fuelBound existing stem ext count
  have heq : 1 + (fuelBound existing - 1) = fuelBound existing := by omega
  exact findFreeBlockAux_some existing stem ext count (fuelBound existing) 1
    (fuelBound existing - 1) (by omega) (by rw [heq]; exact hfree)

lemma findFreeBlockAux_least (existing : List String) (stem ext : String) (count : ℕ)
    (fuel : ℕ) : ∀ n0 n : ℕ, findFreeBlockAux existing stem ext count fuel n0 = some n →
    n0 ≤ n ∧ blockFreeB existing stem ext count n = true ∧
      ∀ m, n0 ≤ m → m < n → blockFreeB existing stem ext count m = false := by
  induction fuel with
  | zero => intro n0 n h; simp [findFreeBlockAux] at h
  | succ fuel ih =>
    intro n0 n h
    by_cases h0 : blockFreeB existing stem ext count n0 = true
    · simp [findFreeBlockAux, h0] at h
      subst h
      exact ⟨le_refl _, h0, fun m hm hm' => by omega⟩
    · simp [findFreeBlockAux, h0] at h
      obtain ⟨h1, h2, h3⟩ := ih (n0 + 1) n h
      refine ⟨by omega, h2, fun m hm hm' => ?_⟩
      rcases Nat.eq_or_lt_of_le hm with rfl | hlt
      · exact Bool.not_eq_true _ ▸ (by simpa using h0)
      · exact h3 m (by omega) hm'

/-! ### Helper lemmas: range resolution -/

lemma resolve_range_of_bounds_ok (files : List String) (a : BounceArgs) (s0 e0 : Int)
    (h : resolve_bounds files a = .ok (s0, e0)) :
    resolve_range files a =
      if (decide (s0 < 0) || decide ((files.length : Int) ≤ e0) || decide (e0 < s0)) = true
      then .error "[오류] 인덱스/파일 범위가 올바르지 않습니다."
      else .ok (s0.toNat, e0.toNat) := by
  unfold resolve_range
  rw [h]

lemma resolve_range_of_bounds_error (files : List String) (a : BounceArgs) (m : String)
    (h : resolve_bounds files a = .error m) : resolve_range files a = .error m := by
  unfold resolve_range
  rw [h]

lemma resolve_bounds_none (files : List String) :
    resolve_bounds files ⟨none, none, none, none⟩ = .ok (0, (files.length : Int) - 1) := rfl

lemma resolve_bounds_idx (files : List String) (si ei : Int) :
    resolve_bounds files ⟨some si, some ei, none, none⟩ = .ok (si - 1, ei - 1) := rfl

lemma resolve_bounds_names (files : List String) (fn tn : String)
    (hfn : fn ≠ "") (htn : tn ≠ "") :
    resolve_bounds files ⟨none, none, some fn, some tn⟩ =
      match index_from_name files fn with
      | .error m => .error m
      | .ok s0 =>
        match index_from_name files tn with
        | .error m => .error m
        | .ok e0 => .ok ((s0 : Int), (e0 : Int)) := by
  unfold resolve_bounds
  simp [optTruthy, hfn, htn]

lemma resolve_range_ok_bounds (files : List String) (a : BounceArgs) (s e : ℕ)
    (h : resolve_range files a = .ok (s, e)) : s ≤ e ∧ e < files.length := by
  unfold resolve_range at h
  rcases hb : resolve_bounds files a with m | p
  · rw [hb] at h; cases h
  · rw [hb] at h
    obtain ⟨s0, e0⟩ := p
    by_cases hc : (decide (s0 < 0) || decide ((files.length : Int) ≤ e0) || decide (e0 < s0)) = true
    · simp only [hc, if_true] at h; cases h
    · simp only [hc, if_false] at h
      simp only [Bool.or_eq_true, decide_eq_true_eq, not_or] at hc
      obtain ⟨⟨h1, h2⟩, h3⟩ := hc
      cases h
      omega

/-! ### Claim theorems -/

/-- C10: for every stem, extension and count `k ≥ 1`, given the finite set of
existing file names, the slot allocator's scan terminates: there is a positive
`n` at which the whole block of `k` candidate names is free, and
`find_free_block` returns a value instead of looping forever. -/
theorem slot_allocator_terminates (existing : List String) (stem ext : String)
    (count : ℕ) (_hc : 1 ≤ count) :
    (∃ n, 1 ≤ n ∧ blockFreeB existing stem ext count n = true) ∧
    (∃ n, find_free_block existing stem ext count = some n) :=
  ⟨⟨fuelBound existing, one_le_fuelBound existing,
      blockFree_at_fuelBound existing stem ext count⟩,
    find_free_block_isSome existing stem ext count⟩

/-- Witness for C10 at a concrete input. -/
theorem slot_allocator_terminates_witness :
    (∃ n, 1 ≤ n ∧ blockFreeB ["x_001.png"] "x" ".png" 1 n = true) ∧
    (∃ n, find_free_block ["x_001.png"] "x" ".png" 1 = some n) :=
  slot_allocator_terminates ["x_001.png"] "x" ".png" 1 (by norm_num)

/-- C3: the slot allocator returns the smallest positive `n` whose whole block
of `count` candidate names `stem_n.ext … stem_(n+count-1).ext` is absent from
the existing files, scanning `n = 1, 2, 3, …` and advancing by one on any
collision; with blocks `[1..3]` and `[7..9]` occupied it returns 4 for a
request of size 3. -/
theorem slot_allocator_least :
    (∀ (existing : List String) (stem ext : String) (count : ℕ), 1 ≤ count →
      ∃ n, find_free_block existing stem ext count = some n ∧ 1 ≤ n ∧
        blockFreeB existing stem ext count n = true ∧
        ∀ m, 1 ≤ m → m < n → blockFreeB existing stem ext count m = false) ∧
    find_free_block ["img_001.png", "img_002.png", "img_003.png", "img_007.png",
      "img_008.png", "img_009.png"] "img" ".png" 3 = some 4 := by
  constructor
  · intro existing stem ext count _
    obtain ⟨n, hn⟩ := find_free_block_isSome existing stem ext count
    have hn' := hn
    unfold find_free_block at hn'
    obtain ⟨h1, h2, h3⟩ := findFreeBlockAux_least existing stem ext count
      (fuelBound existing) 1 n hn'
    exact ⟨n, hn, h1, h2, h3⟩
  · rfl

/-- Witness for C3 at a concrete input. -/
theorem slot_allocator_least_witness :
    ∃ n, find_free_block [] "s" ".png" 2 = some n ∧ 1 ≤ n ∧
      blockFreeB [] "s" ".png" 2 n = true ∧
      ∀ m, 1 ≤ m → m < n → blockFreeB [] "s" ".png" 2 m = false :=
  slot_allocator_least.1 [] "s" ".png" 2 (by norm_num)

/-- C1: with a successfully resolved range `(s0, e0)`: if `s0 = e0` the
bounce plan copies nothing and succeeds; otherwise it copies exactly
`e0 - s0` files, the `j`-th copy taking source index `e0 - 1 - j` (descending
from `e0 - 1` down to `s0`) into the allocated slot
`end_stem_(start_block+j)end_ext`. -/
theorem bounce_mirror_spec (existing files : List String) (a : BounceArgs)
    (s0 e0 : ℕ) (h : resolve_range files a = .ok (s0, e0)) :
    (s0 = e0 → bounce_plan existing files a = .ok []) ∧
    (s0 < e0 →
      bounce_plan existing files a = .ok ((List.range (e0 - s0)).map (fun j =>
        (files.getD (e0 - 1 - j) "",
         candidate (splitext (files.getD e0 "")).1 (splitext (files.getD e0 "")).2
           ((find_free_block existing (splitext (files.getD e0 "")).1
              (splitext (files.getD e0 "")).2 (e0 - s0)).getD 0 + j))))) := by
  obtain ⟨hse, helen⟩ := resolve_range_ok_bounds files a s0 e0 h
  have hne : files.isEmpty = false := by
    rw [List.isEmpty_eq_false_iff_exists_mem]
    have : 0 < files.length := by omega
    obtain ⟨x, hx⟩ := List.exists_mem_of_length_pos this
    exact ⟨x, hx⟩
  constructor
  · intro heq
    subst heq
    unfold bounce_plan
    rw [hne, h]
    simp
  · intro hlt
    unfold bounce_plan
    rw [hne, h]
    simp only [Bool.false_eq_true, if_false]
    have hk : e0 - s0 ≠ 0 := by omega
    have hnonempty :
        ((List.range (e0 - s0)).map (fun j => e0 - 1 - j)).isEmpty = false := by
      simp [List.isEmpty_iff, hk]
    rw [hnonempty]
    simp only [Bool.false_eq_true, if_false]
    have hlen : ((List.range (e0 - s0)).map (fun j => e0 - 1 - j)).length = e0 - s0 := by
      simp
    rw [hlen]
    obtain ⟨n, hn⟩ := find_free_block_isSome existing
      (splitext (files.getD e0 "")).1 (splitext (files.getD e0 "")).2 (e0 - s0)
    rw [hn]
    simp only [Option.getD_some]
    congr 1
    apply List.ext_getElem
    · simp
    · intro i h1 h2
      simp [List.getElem_enum]

/-- Witness for C1: `a.png, b.png, c.png, d.png` with `--start 1 --end 4`
creates exactly `d_001.png` (copy of `c.png`), `d_002.png` (copy of `b.png`)
and `d_003.png` (copy of `a.png`). -/
theorem bounce_mirror_spec_witness :
    bounce_plan ["a.png", "b.png", "c.png", "d.png"] ["a.png", "b.png", "c.png", "d.png"]
      ⟨some 1, some 4, none, none⟩ =
      .ok [("c.png", "d_001.png"), ("b.png", "d_002.png"), ("a.png", "d_003.png")] :=
  Eq.trans
    ((bounce_mirror_spec ["a.png", "b.png", "c.png", "d.png"]
        ["a.png", "b.png", "c.png", "d.png"] ⟨some 1, some 4, none, none⟩ 0 3 rfl).2
      (by norm_num))
    (by rfl)

/-- C4: successful range resolution always yields `s ≤ e < length`; no bounds
resolve to `(0, length-1)`; 1-based index bounds are converted by subtracting
one; filename bounds resolve to their exact-match positions and fail when a
name is absent; and a failed resolution propagates to the bounce plan, so no
copy is planned. -/
theorem range_resolution_spec :
    (∀ (files : List String) (a : BounceArgs) (s e : ℕ),
      resolve_range files a = .ok (s, e) → s ≤ e ∧ e < files.length) ∧
    (∀ files : List String, files ≠ [] →
      resolve_range files ⟨none, none, none, none⟩ = .ok (0, files.length - 1)) ∧
    (∀ (files : List String) (si ei : Int) (s e : ℕ),
      resolve_range files ⟨some si, some ei, none, none⟩ = .ok (s, e) →
      (s : Int) = si - 1 ∧ (e : Int) = ei - 1) ∧
    (∀ (files : List String) (fn tn : String) (s e : ℕ),
      resolve_range files ⟨none, none, some fn, some tn⟩ = .ok (s, e) →
      files.findIdx? (fun f => f == fn) = some s ∧
        files.findIdx? (fun f => f == tn) = some e) ∧
    (∀ (files : List String) (fn tn : String), fn ∉ files →
      ∃ m, resolve_range files ⟨none, none, some fn, some tn⟩ = .error m) ∧
    (∀ (existing files : List String) (a : BounceArgs) (m : String), files ≠ [] →
      resolve_range files a = .error m → bounce_plan existing files a = .error m) := by
  refine ⟨resolve_range_ok_bounds, ?_, ?_, ?_, ?_, ?_⟩
  · intro files hne
    have hl : 1 ≤ files.length := List.length_pos.mpr hne
    have ht : ((files.length : Int) - 1).toNat = files.length - 1 := by omega
    rw [resolve_range_of_bounds_ok files _ _ _ (resolve_bounds_none files)]
    have hcond : (decide ((0 : Int) < 0) ||
        decide ((files.length : Int) ≤ (files.length : Int) - 1) ||
        decide ((files.length : Int) - 1 < (0 : Int))) = false := by
      simp only [Bool.or_eq_false_iff, decide_eq_false_iff_not]
      exact ⟨⟨by omega, by omega⟩, by omega⟩
    rw [hcond]
    simp [ht]
  · intro files si ei s e h
    rw [resolve_range_of_bounds_ok files _ _ _ (resolve_bounds_idx files si ei)] at h
    by_cases hc : (decide (si - 1 < 0) || decide ((files.length : Int) ≤ ei - 1) ||
        decide (ei - 1 < si - 1)) = true
    · rw [if_pos hc] at h; cases h
    · rw [if_neg hc] at h
      simp only [Bool.or_eq_true, decide_eq_true_eq, not_or] at hc
      obtain ⟨⟨h1, h2⟩, h3⟩ := hc
      cases h
      constructor <;> omega
  · intro files fn tn s e h
    by_cases hfn : fn = ""
    · have hb : resolve_bounds files ⟨none, none, some fn, some tn⟩ =
          .error "[오류] --from-name 과 --to-name 을 함께 지정하세요." := by
        unfold resolve_bounds
        simp [optTruthy, hfn]
      rw [resolve_range_of_bounds_error files _ _ hb] at h
      cases h
    · by_cases htn : tn = ""
      · have hb : resolve_bounds files ⟨none, none, some fn, some tn⟩ =
            .error "[오류] --from-name 과 --to-name 을 함께 지정하세요." := by
          unfold resolve_bounds
          simp [optTruthy, htn]
        rw [resolve_range_of_bounds_error files _ _ hb] at h
        cases h
      · rcases h1 : files.findIdx? (fun f => f == fn) with _ | i1
        · have hb : resolve_bounds files ⟨none, none, some fn, some tn⟩ =
              .error ("[오류] 지정한 파일을 찾을 수 없습니다: " ++ fn) := by
            rw [resolve_bounds_names files fn tn hfn htn]
            simp [index_from_name, h1]
          rw [resolve_range_of_bounds_error files _ _ hb] at h
          cases h
        · rcases h2 : files.findIdx? (fun f => f == tn) with _ | i2
          · have hb : resolve_bounds files ⟨none, none, some fn, some tn⟩ =
                .error ("[오류] 지정한 파일을 찾을 수 없습니다: " ++ tn) := by
              rw [resolve_bounds_names files fn tn hfn htn]
              simp [index_from_name, h1, h2]
            rw [resolve_range_of_bounds_error files _ _ hb] at h
            cases h
          · have hb : resolve_bounds files ⟨none, none, some fn, some tn⟩ =
                .ok ((i1 : Int), (i2 : Int)) := by
              rw [resolve_bounds_names files fn tn hfn htn]
              simp [index_from_name, h1, h2]
            rw [resolve_range_of_bounds_ok files _ _ _ hb] at h
            by_cases hc : (decide ((i1 : Int) < 0) ||
                decide ((files.length : Int) ≤ (i2 : Int)) ||
                decide ((i2 : Int) < (i1 : Int))) = true
            · rw [if_pos hc] at h; cases h
            · rw [if_neg hc] at h
              cases h
              exact ⟨by congr 1, by congr 1⟩
  · intro files fn tn hnotin
    by_cases hfn : fn = ""
    · refine ⟨"[오류] --from-name 과 --to-name 을 함께 지정하세요.",
        resolve_range_of_bounds_error files _ _ ?_⟩
      unfold resolve_bounds
      simp [optTruthy, hfn]
    · by_cases htn : tn = ""
      · refine ⟨"[오류] --from-name 과 --to-name 을 함께 지정하세요.",
          resolve_range_of_bounds_error files _ _ ?_⟩
        unfold resolve_bounds
        simp [optTruthy, htn]
      · have h1 : files.findIdx? (fun f => f == fn) = none := by
          rw [List.findIdx?_eq_none_iff]
          intro x hx
          simp only [beq_eq_false_iff_ne, ne_eq]
          intro heq
          exact hnotin (heq ▸ hx)
        refine ⟨"[오류] 지정한 파일을 찾을 수 없습니다: " ++ fn,
          resolve_range_of_bounds_error files _ _ ?_⟩
        rw [resolve_bounds_names files fn tn hfn htn]
        simp [index_from_name, h1]
  · intro existing files a m hne h
    have hie : files.isEmpty = false := by
      rw [List.isEmpty_eq_false_iff_exists_mem]
      obtain ⟨x, hx⟩ := List.exists_mem_of_length_pos (List.length_pos.mpr hne)
      exact ⟨x, hx⟩
    unfold bounce_plan
    rw [hie, h]
    rfl

/-- Witness for C4 at a concrete input: the default (no bounds) resolves to
the whole range. -/
theorem range_resolution_spec_witness :
    resolve_range ["a.png", "b.png"] ⟨none, none, none, none⟩ = .ok (0, 1) := by
  have h := range_resolution_spec.2.1 ["a.png", "b.png"] (by simp)
  simpa using h

/-- C5 (amended): supplying only one of the two index bounds is an error, and
supplying only one of the two filename bounds is an error; but supplying index
bounds together with a complete filename pair is *not* an error — the
filename pair takes priority and the index bounds are ignored. -/
theorem range_args_exclusivity :
    (∀ (files : List String) (si : Int),
      resolve_range files ⟨some si, none, none, none⟩ =
        .error "[오류] --start/--end 는 함께 지정해야 합니다.") ∧
    (∀ (files : List String) (ei : Int),
      resolve_range files ⟨none, some ei, none, none⟩ =
        .error "[오류] --start/--end 는 함께 지정해야 합니다.") ∧
    (∀ (files : List String) (fn : String),
      resolve_range files ⟨none, none, some fn, none⟩ =
        .error "[오류] --from-name 과 --to-name 을 함께 지정하세요.") ∧
    (∀ (files : List String) (tn : String),
      resolve_range files ⟨none, none, none, some tn⟩ =
        .error "[오류] --from-name 과 --to-name 을 함께 지정하세요.") ∧
    (∀ (files : List String) (si ei : Int) (fn tn : String),
      resolve_range files ⟨some si, some ei, some fn, some tn⟩ =
        resolve_range files ⟨none, none, some fn, some tn⟩) := by
  refine ⟨fun files si => rfl, fun files ei => rfl, ?_, ?_, fun files si ei fn tn => rfl⟩
  · intro files fn
    apply resolve_range_of_bounds_error
    unfold resolve_bounds
    simp [optTruthy]
  · intro files tn
    apply resolve_range_of_bounds_error
    unfold resolve_bounds
    simp [optTruthy]

/-- Counterexample to C5 as stated: supplying a complete index pair together
with a complete filename pair is accepted (the filenames win), not rejected. -/
theorem range_args_exclusivity_cex :
    resolve_range ["a.png", "b.png"] ⟨some 1, some 2, some "a.png", some "b.png"⟩ =
      .ok (0, 1) := rfl

/-- Slice decomposition of the bounce preview window. -/
lemma window_slice {α : Type} (A created B : List α) (e0 : ℕ) (hA : A.length = e0 + 1) :
    ((A ++ created ++ B).drop (e0 - 2)).take
        (min (A ++ created ++ B).length (e0 + 3 + created.length) - (e0 - 2)) =
      A.drop (e0 - 2) ++ created ++ B.take 2 := by
  have htot : (A ++ (created ++ B)).length = A.length + created.length + B.length := by
    simp [List.length_append]
    omega
  rw [List.append_assoc]
  rw [List.drop_append_eq_append_drop]
  have h1 : e0 - 2 - A.length = 0 := by omega
  rw [h1, List.drop_zero, List.take_append_eq_append_take]
  have hlenA' : (A.drop (e0 - 2)).length = A.length - (e0 - 2) := List.length_drop _ _
  rw [List.take_of_length_le (by rw [hlenA', htot]; omega)]
  rw [List.take_append_eq_append_take]
  rw [@List.take_of_length_le _ _ created (by rw [hlenA', htot]; omega)]
  rw [List.append_assoc]
  congr 2
  rw [List.take_eq_take]
  rw [hlenA', htot]
  omega

/-- C9 (amended): after a bounce run over range `(s0, e0)` that created the
files `created`, the printed preview is the merged ordering (originals up to
the end frame, the created files, then the remaining originals) windowed from
2 entries before the end frame through all created entries plus up to **2**
(not 3) following original entries. -/
theorem preview_window_spec (files created : List String) (e0 : ℕ)
    (h : e0 < files.length) :
    preview_window files created e0 =
      (files.take (e0 + 1)).drop (e0 - 2) ++ created ++ (files.drop (e0 + 1)).take 2 := by
  have hA : (files.take (e0 + 1)).length = e0 + 1 := by
    rw [List.length_take]
    omega
  unfold preview_window
  exact window_slice (files.take (e0 + 1)) created (files.drop (e0 + 1)) e0 hA

/-- Witness for C9's amended statement at a concrete input. -/
theorem preview_window_spec_witness :
    preview_window ["a", "b", "c", "d", "e", "f", "g"] ["x1", "x2"] 2 =
      ["a", "b", "c", "x1", "x2", "d", "e"] :=
  Eq.trans
    (preview_window_spec ["a", "b", "c", "d", "e", "f", "g"] ["x1", "x2"] 2 (by norm_num))
    (by rfl)

/-- Counterexample to C9 as stated: with 7 originals, end frame at index 2 and
2 created files, the claim's window (through 3 following originals, ending
with `"f"`) is not what the code prints — the window stops after 2 following
originals. -/
theorem preview_window_cex :
    preview_window ["a", "b", "c", "d", "e", "f", "g"] ["x1", "x2"] 2 ≠
      ["a", "b", "c", "x1", "x2", "d", "e", "f"] := by decide

/-- C6: with the default codec `libx264`, `--lossless` and no explicit
quality sets CRF 0 and (without an explicit pixel format) `yuv444p`;
explicitly supplied `--crf`/`--pix-fmt` win over the lossless defaults;
without `--lossless` the CRF defaults to 22 for `libx265`-family codecs and
16 otherwise, and the pixel format defaults to `yuv420p`. -/
theorem lossless_quality_defaults :
    resolve_quality true "libx264" none none = (0, "yuv444p") ∧
    (∀ (q : ℚ) (p : String), resolve_quality true "libx264" (some q) (some p) = (q, p)) ∧
    (∀ q : ℚ, resolve_quality true "libx264" (some q) none = (q, "yuv420p")) ∧
    (∀ p : String, resolve_quality true "libx264" none (some p) = (0, p)) ∧
    (∀ codec : String, resolve_quality false codec none none =
      ((if startswith codec "libx265" then (22 : ℚ) else 16), "yuv420p")) :=
  ⟨rfl, fun _ _ => rfl, fun _ => rfl, fun _ => rfl, fun _ => rfl⟩

/-! ### Helper lemmas: `String.join` and heads -/

lemma foldl_append_init (l : List String) : ∀ a b : String,
    List.foldl (fun r s => r ++ s) (a ++ b) l =
      a ++ List.foldl (fun r s => r ++ s) b l := by
  induction l with
  | nil => intro a b; rfl
  | cons x xs ih =>
    intro a b
    simp only [List.foldl]
    rw [String.append_assoc]
    exact ih a (b ++ x)

lemma join_cons (a : String) (l : List String) :
    String.join (a :: l) = a ++ String.join l := by
  show List.foldl (fun r s => r ++ s) ("" ++ a) l = a ++ List.foldl (fun r s => r ++ s) "" l
  rw [show ("" ++ a) = a ++ "" by rw [String.empty_append, String.append_empty]]
  exact foldl_append_init l a ""

lemma head?_append_str (s t : String) (c : Char) (h : s.data.head? = some c) :
    (s ++ t).data.head? = some c := by
  rw [String.data_append]
  cases hs : s.data with
  | nil => rw [hs] at h; cases h
  | cons a as =>
    rw [hs] at h
    simpa using h

/-- The loop of `build_concat_file` on a list decomposed as `xs ++ [lst]`:
each of the `xs` contributes a file line followed by the duration line, the
last element contributes only its file line. -/
lemma concat_loop_concat (dur : String) : ∀ (xs : List String) (lst : String) (i : ℕ),
    concat_loop (i + xs.length + 1) dur i (xs ++ [lst]) =
      String.join (xs.map (fun p => "file '" ++ escape_single_quotes p ++ "'\n" ++ dur)) ++
        ("file '" ++ escape_single_quotes lst ++ "'\n") := by
  intro xs
  induction xs with
  | nil =>
    intro lst i
    show "file '" ++ escape_single_quotes lst ++ "'\n" ++
        (if i < i + 0 + 1 - 1 then dur else "") ++ concat_loop (i + 0 + 1) dur (i + 1) [] = _
    rw [if_neg (by omega)]
    show "file '" ++ escape_single_quotes lst ++ "'\n" ++ "" ++ "" = _
    rw [String.append_empty, String.append_empty, List.map_nil]
    rw [show String.join ([] : List String) = "" from rfl, String.empty_append]
  | cons x xs ih =>
    intro lst i
    show "file '" ++ escape_single_quotes x ++ "'\n" ++
        (if i < i + (xs.length + 1) + 1 - 1 then dur else "") ++
        concat_loop (i + (xs.length + 1) + 1) dur (i + 1) (xs ++ [lst]) = _
    rw [if_pos (by omega)]
    rw [show i + (xs.length + 1) + 1 = (i + 1) + xs.length + 1 by omega]
    rw [ih lst (i + 1)]
    rw [List.map_cons, join_cons]
    simp only [String.append_assoc]

/-- C2: for a non-empty image list and positive fps, the manifest is one
`file '<escaped path>'` line per image in order, a `duration <1/fps>` line
after every image except the last, and the last file line repeated once with
no duration line after it; single quotes in paths are escaped, and the text
starts with `'f'` (in particular there is no leading byte-order mark). -/
theorem concat_manifest_spec (xs : List String) (lst : String) (fps : ℚ)
    (fr : ℚ → String) (_hfps : 0 < fps) :
    build_concat_file (xs ++ [lst]) fps fr =
      String.join (xs.map (fun p => "file '" ++ escape_single_quotes p ++ "'\n" ++
          ("duration " ++ fr (1 / fps) ++ "\n"))) ++
        ("file '" ++ escape_single_quotes lst ++ "'\n") ++
        ("file '" ++ escape_single_quotes lst ++ "'\n") ∧
    (build_concat_file (xs ++ [lst]) fps fr).data.head? = some 'f' := by
  have hfile : ∀ z : String, ("file '" ++ z).data.head? = some 'f' := by
    intro z
    rw [String.data_append]
    rfl
  have hmain : build_concat_file (xs ++ [lst]) fps fr =
      String.join (xs.map (fun p => "file '" ++ escape_single_quotes p ++ "'\n" ++
          ("duration " ++ fr (1 / fps) ++ "\n"))) ++
        ("file '" ++ escape_single_quotes lst ++ "'\n") ++
        ("file '" ++ escape_single_quotes lst ++ "'\n") := by
    unfold build_concat_file
    rw [List.getLast?_concat]
    have hlen : (xs ++ [lst]).length = 0 + xs.length + 1 := by simp
    rw [hlen]
    show concat_loop (0 + xs.length + 1) ("duration " ++ fr (1 / fps) ++ "\n") 0
        (xs ++ [lst]) ++ ("file '" ++ escape_single_quotes lst ++ "'\n") = _
    rw [concat_loop_concat]
  refine ⟨hmain, ?_⟩
  rw [hmain]
  cases xs with
  | nil =>
    rw [show ((([] : List String).map (fun p => "file '" ++ escape_single_quotes p ++ "'\n" ++
        ("duration " ++ fr (1 / fps) ++ "\n")))) = [] from rfl]
    rw [show String.join ([] : List String) = "" from rfl, String.empty_append]
    apply head?_append_str
    rw [String.append_assoc]
    exact hfile _
  | cons x xs' =>
    rw [List.map_cons, join_cons]
    apply head?_append_str
    apply head?_append_str
    apply head?_append_str
    rw [String.append_assoc]
    exact hfile _

/-- Witness for C2 at a concrete input: two images, one containing a single
quote, at 16 fps. -/
theorem concat_manifest_spec_witness :
    build_concat_file ["/x/a.png", "/x/b'c.png"] 16 (fun _ => "0.0625") =
      "file '/x/a.png'\n" ++ "duration 0.0625\n" ++
        "file '/x/b'\\''c.png'\n" ++ "file '/x/b'\\''c.png'\n" :=
  Eq.trans
    ((concat_manifest_spec ["/x/a.png"] "/x/b'c.png" 16 (fun _ => "0.0625")
      (by norm_num)).1)
    (by rfl)

/-- A string that begins with `scale=` is not the tag flag. -/
lemma scale_ne_tag (x : String) : ("scale=" ++ x) ≠ "-tag:v" := by
  intro h
  have hd : ("scale=" ++ x).data = "-tag:v".data := congrArg String.data h
  rw [String.data_append] at hd
  rw [show "scale=".data = 's' :: ['c', 'a', 'l', 'e', '='] from rfl] at hd
  rw [show "-tag:v".data = '-' :: ['t', 'a', 'g', ':', 'v'] from rfl] at hd
  rw [List.cons_append] at hd
  simp at hd

lemma cmd_vf_ne_tag (size : Option (ℕ × ℕ)) : cmd_vf size ≠ "-tag:v" := by
  cases size with
  | none => decide
  | some wh =>
    show ("scale=" ++ decStr wh.1 ++ ":-2:flags=lanczos") ++ "," ++
        "scale=ceil(iw/2)*2:ceil(ih/2)*2" ≠ "-tag:v"
    rw [String.append_assoc, String.append_assoc, String.append_assoc]
    exact scale_ne_tag _

/-- C7: the command line contains the segment `-tag:v hvc1` (immediately
before the output name) if and only if the codec starts with `libx265` and
the output extension, lowercased, is `.mp4`; otherwise `-tag:v` does not
occur anywhere in the command (given that no user-supplied argument is
itself the literal string `-tag:v`). -/
theorem hvc1_tag_spec (ffmpeg concatStr fpsStr crfStr preset pix_fmt codec outName : String)
    (size : Option (ℕ × ℕ))
    (h : "-tag:v" ∉ [ffmpeg, concatStr, fpsStr, crfStr, preset, pix_fmt, codec, outName]) :
    ((startswith codec "libx265" && (strLower (splitext outName).2 == ".mp4")) = true →
      ∃ s t, build_cmd ffmpeg concatStr fpsStr crfStr preset pix_fmt codec outName size =
        s ++ ["-tag:v", "hvc1"] ++ t) ∧
    ((startswith codec "libx265" && (strLower (splitext outName).2 == ".mp4")) = false →
      "-tag:v" ∉ build_cmd ffmpeg concatStr fpsStr crfStr preset pix_fmt codec outName size) := by
  simp only [List.mem_cons, List.not_mem_nil, or_false, not_or] at h
  obtain ⟨h1, h2, h3, h4, h5, h6, h7, h8⟩ := h
  constructor
  · intro hc
    refine ⟨[ffmpeg, "-y", "-f", "concat", "-safe", "0", "-i", concatStr, "-r", fpsStr] ++
      cmd_vfPart size ++ cmd_codecPart codec crfStr preset pix_fmt, [outName], ?_⟩
    unfold build_cmd cmd_tagPart
    rw [hc]
    simp [List.append_assoc]
  · intro hc
    unfold build_cmd cmd_tagPart cmd_vfPart cmd_codecPart
    rw [hc]
    have hvf := (cmd_vf_ne_tag size).symm
    by_cases hp : codec = "prores_ks"
    · by_cases hv : cmd_vf size ≠ ""
      · simp [hp, hv, h1, h2, h3, h8, hvf]
      · simp [hp, hv, h1, h2, h3, h8, hvf]
    · by_cases hv : cmd_vf size ≠ ""
      · simp [hp, hv, h1, h2, h3, h4, h5, h6, h7, h8, hvf]
      · simp [hp, hv, h1, h2, h3, h4, h5, h6, h7, h8, hvf]

/-- Witness for C7: `libx265` with `out.mp4` gets the tag appended. -/
theorem hvc1_tag_spec_witness :
    ∃ s t, build_cmd "ffmpeg" "list.txt" "16.0" "22.0" "slow" "yuv420p" "libx265"
        "out.mp4" none = s ++ ["-tag:v", "hvc1"] ++ t :=
  (hvc1_tag_spec "ffmpeg" "list.txt" "16.0" "22.0" "slow" "yuv420p" "libx265"
    "out.mp4" none (by decide)).1 (by decide)

/-- C8: enumeration keeps exactly the regular files whose lowercased,
dot-stripped extension is in the accepted set; the output is sorted
non-decreasingly by the case-insensitively compared file *name* (not path);
the result is exactly a reordering of the matching entries (so enumerating
identical contents always yields the same sequence); and an empty match is
the empty list, a valid value rather than an error. -/
theorem enumeration_spec (entries : List FSEntry) (exts : List String) :
    (∀ p ∈ collect_images entries exts, p.isFile = true ∧
      lstripDots (strLower (splitext p.name).2) ∈
        exts.map (fun e => lstripDots (strLower e))) ∧
    List.Pairwise (fun p q => (strLower p.name).data ≤ (strLower q.name).data)
      (collect_images entries exts) ∧
    (collect_images entries exts).Perm (entries.filter (fun p =>
      p.isFile && (exts.map (fun e => lstripDots (strLower e))).contains
        (lstripDots (strLower (splitext p.name).2)))) ∧
    collect_images [] exts = [] := by
  have hperm : (collect_images entries exts).Perm (entries.filter (fun p =>
      p.isFile && (exts.map (fun e => lstripDots (strLower e))).contains
        (lstripDots (strLower (splitext p.name).2)))) :=
    List.mergeSort_perm _ _
  refine ⟨?_, ?_, hperm, ?_⟩
  · intro p hp
    have hp' := hperm.mem_iff.mp hp
    rw [List.mem_filter] at hp'
    have hcond := hp'.2
    rw [Bool.and_eq_true] at hcond
    refine ⟨hcond.1, ?_⟩
    have := hcond.2
    simpa using this
  · have hsorted := @List.sorted_mergeSort FSEntry
      (fun p q => decide ((strLower p.name).data ≤ (strLower q.name).data))
      (fun a b c hab hbc => by
        simp only [decide_eq_true_eq] at hab hbc ⊢
        exact le_trans hab hbc)
      (fun a b => by
        simp only [Bool.or_eq_true, decide_eq_true_eq]
        exact le_total _ _)
      (entries.filter (fun p =>
        p.isFile && (exts.map (fun e => lstripDots (strLower e))).contains
          (lstripDots (strLower (splitext p.name).2))))
    exact hsorted.imp (fun h => by simpa using h)
  · simp [collect_images]

/-- Witness for C8 at a concrete input: a matching `.jpg` entry is in the
enumeration and satisfies the filter conditions. -/
theorem enumeration_spec_witness :
    (⟨"./a.jpg", "a.jpg", true⟩ : FSEntry).isFile = true ∧
      lstripDots (strLower (splitext "a.jpg").2) ∈
        (["jpg"].map (fun e => lstripDots (strLower e))) := by
  have hp : (⟨"./a.jpg", "a.jpg", true⟩ : FSEntry) ∈
      collect_images [⟨"./a.jpg", "a.jpg", true⟩] ["jpg"] :=
    (List.mergeSort_perm _ _).mem_iff.mpr (by decide)
  exact (enumeration_spec [⟨"./a.jpg", "a.jpg", true⟩] ["jpg"]).1 _ hp

end Img2vid
